import Mathlib

/-!
Verification of the time-series normalization and alignment core of the
`data_scraper` repository (`frontend/src/modules/graph/`): the value
formatter (`formatValue`), the missing-value policy (`handleMissingValues`,
`interpolateMissingValues`), the date sort (`sortDataByDate`), the date
parser (`parseDate`), the series aligner (the `chartData` computation of
`TimeSeriesGraph`) and the configuration resolver (`getDefaultConfig`,
`mergeConfig`).

Modelling conventions for the JavaScript host semantics:
* JS numbers (IEEE-754 doubles) are modelled as exact rationals plus the
  special values `+Infinity`, `-Infinity` and `NaN` (`JsNum`).  Floating
  point rounding is idealized away: arithmetic on finite values is exact
  rational arithmetic.  The special-value propagation rules (IEEE) are
  modelled exactly, since the source's validity check `!isNaN(v)` treats
  Infinity as a valid number.
* `number | null` is `JsVal` (`JsVal.null` is the `absent` state).
* The global `isNaN` is `jsNumIsNaN` (it is false on ±Infinity).
* `Number.prototype.toFixed(2)` is `jsToFixed2`, following ECMA-262:
  `NaN → "NaN"`, values `≥ 1e21` fall back to `Number::toString`
  (modelled by `expString` on the integer part — every double `≥ 1e21`
  is an integer), negative values are rendered as `"-"` ++ the rendering
  of the magnitude, and otherwise the integer `n` with `n/100` closest to
  the value is chosen, ties taking the larger `n`.
* `String.prototype.includes` is `jsIncludes`; `toLowerCase` is
  `String.toLower` (all unit hints involved are ASCII).
-/

set_option allowUnsafeReducibility true in
attribute [semireducible] Rat.mul Rat.inv Rat.add Rat.sub Rat.ofScientific

namespace Scraper

/-- JsNum models a JavaScript number: an exact rational, one of the two
infinities, or NaN. -/
inductive JsNum where
  | fin (q : ℚ)
  | pinf
  | ninf
  | nan
deriving DecidableEq

/-- JsVal models the TypeScript type `number | null` of point values. -/
inductive JsVal where
  | num (x : JsNum)
  | null
deriving DecidableEq

/-- Model of the global `isNaN` applied to a number: true exactly on NaN
(in particular false on ±Infinity). -/
def jsNumIsNaN : JsNum → Bool
  | .nan => true
  | _ => false

/-- Validity test used throughout the source:
`point.value !== null && !isNaN(point.value)`.  Note ±Infinity passes. -/
def isValidNum : JsVal → Bool
  | .num x => !jsNumIsNaN x
  | .null => false

/-- JS subtraction with IEEE special-value rules (exact on finite values). -/
def jsSub : JsNum → JsNum → JsNum
  | .nan, _ => .nan
  | _, .nan => .nan
  | .fin a, .fin b => .fin (a - b)
  | .pinf, .pinf => .nan
  | .pinf, _ => .pinf
  | .ninf, .ninf => .nan
  | .ninf, _ => .ninf
  | .fin _, .pinf => .ninf
  | .fin _, .ninf => .pinf

/-- JS addition with IEEE special-value rules (exact on finite values). -/
def jsAdd : JsNum → JsNum → JsNum
  | .nan, _ => .nan
  | _, .nan => .nan
  | .fin a, .fin b => .fin (a + b)
  | .pinf, .ninf => .nan
  | .pinf, _ => .pinf
  | .ninf, .pinf => .nan
  | .ninf, _ => .ninf
  | .fin _, .pinf => .pinf
  | .fin _, .ninf => .ninf

/-- JS multiplication with IEEE special-value rules (exact on finite values). -/
def jsMul : JsNum → JsNum → JsNum
  | .nan, _ => .nan
  | _, .nan => .nan
  | .fin a, .fin b => .fin (a * b)
  | .pinf, .fin b => if 0 < b then .pinf else if b < 0 then .ninf else .nan
  | .ninf, .fin b => if 0 < b then .ninf else if b < 0 then .pinf else .nan
  | .fin a, .pinf => if 0 < a then .pinf else if a < 0 then .ninf else .nan
  | .fin a, .ninf => if 0 < a then .ninf else if a < 0 then .pinf else .nan
  | .pinf, .pinf => .pinf
  | .pinf, .ninf => .ninf
  | .ninf, .pinf => .ninf
  | .ninf, .ninf => .pinf

/-- JS division by a finite constant (the source only divides by the
positive constants 1e9, 1e6, 1e3). -/
def jsDiv (x : JsNum) (c : ℚ) : JsNum :=
  match x with
  | .nan => .nan
  | .fin a =>
    if c = 0 then (if 0 < a then .pinf else if a < 0 then .ninf else .nan)
    else .fin (a / c)
  | .pinf => if c < 0 then .ninf else .pinf
  | .ninf => if c < 0 then .pinf else .ninf

/-- Two-digit left zero padding of a natural number below 100. -/
def pad2 (n : ℕ) : String :=
  if n < 10 then "0" ++ toString n else toString n

/-- Exponential rendering used by `Number::toString` for integers with
more than 21 digits, e.g. `1e+21`, `1.5e+22` (trailing zeros of the
mantissa are dropped). -/
def expString (m : ℕ) : String :=
  let ds := (toString m).toList
  match ds with
  | [] => "0"
  | d :: rest =>
    let rest2 := (rest.reverse.dropWhile (fun c => c = '0')).reverse
    let mant := if rest2.isEmpty then String.mk [d]
                else String.mk [d] ++ "." ++ String.mk rest2
    mant ++ "e+" ++ toString (ds.length - 1)

/-- ECMA-262 `toFixed(2)` on a nonnegative value: values at least 1e21
are rendered by the `Number::toString` fallback; otherwise the integer `n` with
`n / 100` closest to the value is used, ties resolved to the larger `n`. -/
def toFixed2Pos (q : ℚ) : String :=
  if (1000000000000000000000 : ℚ) ≤ q then expString (⌊q⌋).toNat
  else
    let n : ℕ := (⌊q * 100 + 1 / 2⌋).toNat
    toString (n / 100) ++ "." ++ pad2 (n % 100)

/-- Model of `x.toFixed(2)` for a JS number `x`. -/
def jsToFixed2 : JsNum → String
  | .nan => "NaN"
  | .pinf => "Infinity"
  | .ninf => "-Infinity"
  | .fin q => if q < 0 then "-" ++ toFixed2Pos (-q) else toFixed2Pos q

/-- Substring occurrence on character lists (receiver first argument is
consumed structurally). -/
def hasSubList (pat : List Char) : List Char → Bool
  | [] => pat.isEmpty
  | c :: t => pat.isPrefixOf (c :: t) || hasSubList pat t

/-- Model of `s.includes(pat)`. -/
def jsIncludes (s pat : String) : Bool :=
  hasSubList pat.toList s.toList

/-- Model of `s.toLowerCase()` (character-wise lowering; the unit hints
in scope are ASCII, where JS and Unicode simple lowering agree). -/
def jsToLower (s : String) : String :=
  String.mk (s.toList.map Char.toLower)

/-- The percent-unit test of `formatValue`:
`units?.toLowerCase().includes('percent') || units?.includes('%')`. -/
def unitsPercent : Option String → Bool
  | none => false
  | some u => jsIncludes (jsToLower u) "percent" || jsIncludes u "%"

/-- The index-unit test of `formatValue`:
`units?.toLowerCase().includes('index')`. -/
def unitsIndex : Option String → Bool
  | none => false
  | some u => jsIncludes (jsToLower u) "index"

/-- Model of `Math.abs(value) >= c` for a JS number (false on NaN, true
on ±Infinity for the thresholds used). -/
def jsAbsGe (x : JsNum) (c : ℚ) : Bool :=
  match x with
  | .fin q => decide (c ≤ |q|)
  | .pinf => true
  | .ninf => true
  | .nan => false

/-- Embedding of `formatValue` (dataTransform.ts): renders a nullable
numeric value given an optional unit hint. -/
def formatValue (value : JsVal) (units : Option String) : String :=
  match value with
  | .null => "N/A"
  | .num x =>
    if jsNumIsNaN x then "N/A"
    else if unitsPercent units then jsToFixed2 x ++ "%"
    else if unitsIndex units then jsToFixed2 x
    else if jsAbsGe x 1000000000 then jsToFixed2 (jsDiv x 1000000000) ++ "B"
    else if jsAbsGe x 1000000 then jsToFixed2 (jsDiv x 1000000) ++ "M"
    else if jsAbsGe x 1000 then jsToFixed2 (jsDiv x 1000) ++ "K"
    else jsToFixed2 x

example : formatValue (.num (.fin 1500000000)) none = "1.50B" := by decide
example : formatValue .null (some "percent") = "N/A" := by decide
example : formatValue (.num (.fin (421 / 10))) (some "Index") = "42.10" := by decide
example : formatValue (.num .pinf) none = "InfinityB" := by decide

/-!
Date model.  `parseDate` wraps the JS `new Date(...)` constructor, whose
date-value is a millisecond timestamp or NaN ("Invalid Date").  We model a
JS `Date` object as `JsDate` carrying `Option ℤ` (`none` = NaN time; all
times produced by the ECMA date-only string format are integral
milliseconds).  `jsParseDateString` models the ECMA-262 Date Time String
Format for the date-only forms `YYYY`, `YYYY-MM`, `YYYY-MM-DD` (UTC
midnight; a bare year or year-month defaults the missing fields to 01,
so `"2020"` and `"2020-01-01"` denote the same instant).  Date-time
forms with a time part and engine-specific fallback formats are outside
the model: they map to `none` like any other unrecognized string.
-/

/-- Proleptic-Gregorian leap-year test (ECMA-262 `DaysInYear`). -/
def isLeapYear (y : ℕ) : Bool :=
  y % 4 = 0 && (y % 100 != 0 || y % 400 = 0)

/-- Days in a (1-based) month of a year. -/
def daysInMonth (y m : ℕ) : ℕ :=
  if m = 1 || m = 3 || m = 5 || m = 7 || m = 8 || m = 10 || m = 12 then 31
  else if m = 4 || m = 6 || m = 9 || m = 11 then 30
  else if isLeapYear y then 29 else 28

/-- Days from the epoch 1970-01-01 to the civil date `y-m-d` (standard
era-based Gregorian day-count; all intermediate divisions act on
nonnegative values for the 4-digit years the parser admits). -/
def daysFromCivil (y : ℤ) (m d : ℕ) : ℤ :=
  let y2 : ℤ := if m ≤ 2 then y - 1 else y
  let era : ℤ := (if 0 ≤ y2 then y2 else y2 - 399) / 400
  let yoe : ℤ := y2 - era * 400
  let mp : ℕ := (m + 9) % 12
  let doy : ℕ := (153 * mp + 2) / 5 + (d - 1)
  let doe : ℤ := yoe * 365 + yoe / 4 - yoe / 100 + (doy : ℤ)
  era * 146097 + doe - 719468

/-- Millisecond timestamp of UTC midnight of `y-m-d`. -/
def dateMs (y m d : ℕ) : ℤ :=
  daysFromCivil (y : ℤ) m d * 86400000

/-- Decimal value of a digit list. -/
def digitsToNat (l : List Char) : ℕ :=
  l.foldl (fun n c => n * 10 + (c.toNat - 48)) 0

/-- Parse an exactly 4-digit decimal field. -/
def parse4Digits (s : List Char) : Option ℕ :=
  if s.length = 4 && s.all Char.isDigit then some (digitsToNat s) else none

/-- Parse an exactly 2-digit decimal field. -/
def parse2Digits (s : List Char) : Option ℕ :=
  if s.length = 2 && s.all Char.isDigit then some (digitsToNat s) else none

/-- Split a character list at every dash (the semantics of
`s.split('-')` / `splitOn "-"` for the single-character separator). -/
def splitOnDashAux (acc : List Char) : List Char → List (List Char)
  | [] => [acc.reverse]
  | c :: t => if c = '-' then acc.reverse :: splitOnDashAux [] t else splitOnDashAux (c :: acc) t

/-- Model of JS date-string parsing (`new Date(string)` / `Date.parse`)
restricted to the ECMA date-only forms; everything else is NaN (`none`). -/
def jsParseDateString (s : String) : Option ℤ :=
  match splitOnDashAux [] s.toList with
  | [y] =>
    match parse4Digits y with
    | some yr => some (dateMs yr 1 1)
    | none => none
  | [y, m] =>
    match parse4Digits y, parse2Digits m with
    | some yr, some mo =>
      if 1 ≤ mo && mo ≤ 12 then some (dateMs yr mo 1) else none
    | _, _ => none
  | [y, m, d] =>
    match parse4Digits y, parse2Digits m, parse2Digits d with
    | some yr, some mo, some dd =>
      if 1 ≤ mo && mo ≤ 12 && 1 ≤ dd && dd ≤ daysInMonth yr mo
      then some (dateMs yr mo dd) else none
    | _, _, _ => none
  | _ => none

/-- A JS `Date` object: its time value (`none` models the NaN time of an
Invalid Date). -/
structure JsDate where
  time : Option ℤ
deriving DecidableEq

/-- The argument type of `parseDate`: `string | Date`. -/
inductive DateInput where
  | str (s : String)
  | dateObj (d : JsDate)
deriving DecidableEq

/-- Embedding of `parseDate` (dataTransform.ts): a `Date` object is
returned as-is, a string is handed to `new Date(string)`.  No error is
ever raised; an unparseable string yields an Invalid Date (NaN time). -/
def parseDate : DateInput → JsDate
  | .dateObj d => d
  | .str s => ⟨jsParseDateString s⟩

example : parseDate (.str "2020") = ⟨some 1577836800000⟩ := by decide
example : parseDate (.str "not-a-date") = ⟨none⟩ := by decide

/-!
Time-series data.  `TimeSeriesDataPoint.date` is `string | Date` in the
source; every consumer in scope normalizes a `Date` object to a string
(`chartData` via `toISOString`, `parseDate` by passing it through), so
the model carries the string form of the date.
-/

/-- Embedding of `TimeSeriesDataPoint` (graphTypes.ts). -/
structure TimeSeriesDataPoint where
  date : String
  value : JsVal
deriving DecidableEq

/-- Metadata is an open string-keyed bag in the source; its contents are
only stored and passed through, never inspected, by the components in
scope. -/
abbrev Metadata := List (String × String)

/-- Embedding of `TimeSeriesDataset` (graphTypes.ts). -/
structure TimeSeriesDataset where
  id : String
  label : String
  data : List TimeSeriesDataPoint
  metadata : Option Metadata
deriving DecidableEq

/-!
Missing-value policy (dataTransform.ts).
-/

/-- One step of the `interpolateMissingValues` gap fill: the value pushed
for gap position `j` between the last valid point (index `li`, value
`lv`) and the current valid point (index `i`, value `cur`):
`lastValidValue + (value - lastValidValue) * ((j - lastValidIndex) / gap)`. -/
def interpValue (lv cur : JsNum) (li j i : ℕ) : JsNum :=
  jsAdd lv (jsMul (jsSub cur lv) (.fin (((j - li : ℕ) : ℚ) / ((i - li : ℕ) : ℚ))))

/-- The interpolated copies pushed by the inner `for (let j = lastValidIndex
+ 1; j < i; j++)` loop of `interpolateMissingValues`. -/
def gapFill (data : List TimeSeriesDataPoint) (li : ℕ) (lv : JsNum) (i : ℕ)
    (cur : JsNum) : List TimeSeriesDataPoint :=
  (List.range' (li + 1) (i - li - 1)).map
    (fun j => { (data.getD j ⟨"", .null⟩) with value := .num (interpValue lv cur li j i) })

/-- The main loop of `interpolateMissingValues`: `i` is the index of the
head of `rest` in `data`; `last` carries `(lastValidIndex,
lastValidValue)` (`none` models the initial `lastValidIndex = -1`).
A valid point first pushes the gap fill (when the gap is nonempty), then
itself; an invalid point is pushed unchanged. -/
def interpGo (data : List TimeSeriesDataPoint) :
    ℕ → Option (ℕ × JsNum) → List TimeSeriesDataPoint → List TimeSeriesDataPoint
  | _, _, [] => []
  | i, last, p :: rest =>
    match p.value with
    | .num x =>
      if jsNumIsNaN x then p :: interpGo data (i + 1) last rest
      else
        (match last with
         | some (li, lv) => if li + 1 < i then gapFill data li lv i x else []
         | none => []) ++ p :: interpGo data (i + 1) (some (i, x)) rest
    | .null => p :: interpGo data (i + 1) last rest

/-- Embedding of `interpolateMissingValues` (dataTransform.ts). -/
def interpolateMissingValues (data : List TimeSeriesDataPoint) :
    List TimeSeriesDataPoint :=
  interpGo data 0 none data

/-- Embedding of `handleMissingValues` (dataTransform.ts).  The strategy
is a string at runtime; the TypeScript default parameter value is
`'remove'` (used when the argument is omitted), while a string matching
none of the three cases reaches the `default:` branch, which returns the
input unchanged. -/
def handleMissingValues (data : List TimeSeriesDataPoint) (strategy : String) :
    List TimeSeriesDataPoint :=
  match strategy with
  | "remove" => data.filter (fun p => isValidNum p.value)
  | "zero" =>
    data.map (fun p =>
      { p with value := if !isValidNum p.value then .num (.fin 0) else p.value })
  | "interpolate" => interpolateMissingValues data
  | _ => data

example :
    interpolateMissingValues
      [⟨"2020-01-01", .num (.fin 5)⟩, ⟨"2020-01-02", .null⟩,
       ⟨"2020-01-03", .num (.fin 7)⟩] =
      [⟨"2020-01-01", .num (.fin 5)⟩, ⟨"2020-01-02", .null⟩,
       ⟨"2020-01-02", .num (.fin 6)⟩, ⟨"2020-01-03", .num (.fin 7)⟩] := by decide

/-!
Stable sorting.  `Array.prototype.sort` with a numeric comparator: the
ECMAScript sort is required to be stable, and when the comparator
returns NaN the spec treats it as `+0` (equal).  We model it as a stable
insertion sort; for a consistent comparator every stable sort produces
the same output.  The comparators in scope subtract two `getTime()`
values, so the result is NaN (treated as equal) exactly when either time
is NaN.
-/

/-- Stable insertion of `x` into `l`: `x` goes before the first element
strictly greater than it, after earlier equals. -/
def insertCmp (cmp : α → α → Ordering) (x : α) : List α → List α
  | [] => [x]
  | y :: ys => if cmp y x = Ordering.gt then x :: y :: ys else y :: insertCmp cmp x ys

/-- Stable sort by a JS comparator. -/
def jsStableSort (cmp : α → α → Ordering) (l : List α) : List α :=
  l.foldl (fun acc x => insertCmp cmp x acc) []

/-- A JS numeric comparator of the form `getTime(a) - getTime(b)` where
the time is `none` for NaN: both times defined compare numerically, and
a NaN difference is treated as `+0` (equal) by the ECMAScript sort. -/
def cmpByKey (key : α → Option ℤ) (a b : α) : Ordering :=
  match key a, key b with
  | some x, some y => compare x y
  | _, _ => .eq

/-- Comparator of `sortDataByDate`:
`parseDate(a.date).getTime() - parseDate(b.date).getTime()` (NaN, i.e.
an unparseable date on either side, compares as equal). -/
def cmpPointDates : TimeSeriesDataPoint → TimeSeriesDataPoint → Ordering :=
  cmpByKey (fun p => jsParseDateString p.date)

/-- Embedding of `sortDataByDate` (dataTransform.ts): `[...data].sort(...)`
sorts a spread copy of the input. -/
def sortDataByDate (data : List TimeSeriesDataPoint) : List TimeSeriesDataPoint :=
  jsStableSort cmpPointDates data

/-!
Series alignment: the `chartData` computation of the `TimeSeriesGraph`
component.  The source builds a `Map<string, Record<string, ...>>` keyed
by the raw date string of each point (a `Date`-typed date is first
turned into its ISO string; the model takes the string form).  Each row
record initially holds the field `date: dateStr`; the loop then assigns
`row[dataset.id] = point.value` and, when the dataset has metadata,
`row[dataset.id + "_metadata"] = metadata`.  A JS record is modelled as
an insertion-ordered association list (`Row`): assignment to an existing
key updates it in place, a new key is appended — exactly the JS property
order semantics.  The `Map` is likewise insertion-ordered (`DataMap`).
The `allDates` set computed by the source is never read afterwards and
has no observable effect, so it is not modelled.  Finally
`Array.from(dataMap.values()).sort(...)` sorts the rows by
`new Date(row.date).getTime()`; `row.date` is normally the date string,
but a dataset whose id is literally `"date"` would have overwritten it
with a point value, so `rowTime` handles every entry shape the record
can hold (`new Date(number)` truncates the ms timestamp, `new
Date(null)` is epoch 0, `new Date(NaN)`, `new Date(±Infinity)` and `new
Date(object)` are Invalid).
-/

/-- A value stored in a chart-row record: the initial `date` string, a
point value, or a metadata object. -/
inductive Entry where
  | str (s : String)
  | val (v : JsVal)
  | meta (m : Metadata)
deriving DecidableEq

/-- A chart row: a JS record as an insertion-ordered association list. -/
abbrev Row := List (String × Entry)

/-- Record field lookup (first, i.e. only, binding of the key). -/
def rLookup : Row → String → Option Entry
  | [], _ => none
  | (k, e) :: rest, key => if k = key then some e else rLookup rest key

/-- JS property assignment: update an existing key in place, else append. -/
def recordSet : Row → String → Entry → Row
  | [], k, e => [(k, e)]
  | (k1, e1) :: rest, k, e =>
    if k1 = k then (k, e) :: rest else (k1, e1) :: recordSet rest k e

/-- The insertion-ordered `Map` from date string to row. -/
abbrev DataMap := List (String × Row)

/-- Model of `dataMap.has(dateStr)`. -/
def dmHas (dm : DataMap) (k : String) : Bool :=
  dm.any (fun kv => kv.1 == k)

/-- Update the row bound to key `k` (no-op when the key is absent). -/
def dmUpdate : DataMap → String → (Row → Row) → DataMap
  | [], _, _ => []
  | (k1, r) :: rest, k, f =>
    if k1 = k then (k1, f r) :: rest else (k1, r) :: dmUpdate rest k f

/-- One iteration of the inner loop of `chartData`: ensure the row for
`point.date` exists (seeded with the `date` field), then assign the
point value under the dataset id and, when metadata is present, the
metadata object under `id + "_metadata"`. -/
def addPoint (dm : DataMap) (dsId : String) (md : Option Metadata)
    (p : TimeSeriesDataPoint) : DataMap :=
  let dm1 := if dmHas dm p.date then dm
             else dm ++ [(p.date, [("date", Entry.str p.date)])]
  let dm2 := dmUpdate dm1 p.date (fun r => recordSet r dsId (Entry.val p.value))
  match md with
  | some m => dmUpdate dm2 p.date (fun r => recordSet r (dsId ++ "_metadata") (Entry.meta m))
  | none => dm2

/-- The nested `datasets.forEach(dataset => dataset.data.forEach(point =>
...))` loops of `chartData`. -/
def buildDataMap (datasets : List TimeSeriesDataset) : DataMap :=
  datasets.foldl
    (fun dm ds => ds.data.foldl (fun dm p => addPoint dm ds.id ds.metadata p) dm) []

/-- Truncation toward zero of a rational (JS `ToIntegerOrInfinity`). -/
def ratTrunc (q : ℚ) : ℤ :=
  Int.tdiv q.num (q.den : ℤ)

/-- The time value `new Date(row.date).getTime()` used by the final sort
of `chartData`, for every shape `row.date` can have (see above). -/
def rowTime (r : Row) : Option ℤ :=
  match rLookup r "date" with
  | some (.str s) => jsParseDateString s
  | some (.val (.num (.fin q))) =>
    if |q| ≤ 8640000000000000 then some (ratTrunc q) else none
  | some (.val (.num _)) => none
  | some (.val .null) => some 0
  | some (.meta _) => none
  | none => none

/-- The row comparator of `chartData`:
`new Date(a.date).getTime() - new Date(b.date).getTime()` (a NaN
difference is treated as `+0`, i.e. equal, by the ECMAScript sort). -/
def cmpRows : Row → Row → Ordering :=
  cmpByKey rowTime

/-- Embedding of the `chartData` computation of `TimeSeriesGraph`:
the aligner producing one row per distinct date string, sorted by parsed
date. -/
def chartData (datasets : List TimeSeriesDataset) : List Row :=
  if datasets.length = 0 then []
  else jsStableSort cmpRows ((buildDataMap datasets).map Prod.snd)

/-- All date strings of all points, in iteration order. -/
def allDateStrs (datasets : List TimeSeriesDataset) : List String :=
  datasets.flatMap (fun ds => ds.data.map (fun p => p.date))

/-- Modelled from the spec: the canonical DateKey of a date string — the
first instant of the reporting period it denotes, so that two points
referring to the same period compare equal regardless of source string
format (`none` for an unparseable string).  The implementation never
computes this key (it keys rows by the raw string); the definition
exists to state the spec-side "distinct DateKeys" count that the
original alignment claim refers to. -/
def specDateKey (s : String) : Option ℤ :=
  jsParseDateString s

example :
    chartData
      [⟨"a", "A", [⟨"2020-01-02", .num (.fin 1)⟩], none⟩,
       ⟨"b", "B", [⟨"2020-01-01", .num (.fin 2)⟩], none⟩] =
      [[("date", .str "2020-01-01"), ("b", .val (.num (.fin 2)))],
       [("date", .str "2020-01-02"), ("a", .val (.num (.fin 1)))]] := by decide

example :
    chartData
      [⟨"a", "A", [⟨"2020", .num (.fin 1)⟩], none⟩,
       ⟨"b", "B", [⟨"2020-01-01", .num (.fin 2)⟩], none⟩] =
      [[("date", .str "2020"), ("a", .val (.num (.fin 1)))],
       [("date", .str "2020-01-01"), ("b", .val (.num (.fin 2)))]] := by decide

/-!
Frame conditions.  All policy and sort functions are built from
non-mutating JS primitives (`filter`, `map`, object spread, `push` into
a fresh result array); the only in-place-mutating primitive used is
`Array.prototype.sort`, and `sortDataByDate` applies it to the fresh
spread copy `[...data]`, never to the input array.  The `Frame` variants
return, alongside the result, the contents of the caller's input array
after the call as prescribed by those semantics: unchanged.
-/

/-- The result of `handleMissingValues` together with the post-call
contents of the input array (unchanged: `filter`/`map`/`push` allocate,
and the `default:` branch returns the input without touching it). -/
def handleMissingValuesFrame (data : List TimeSeriesDataPoint)
    (strategy : String) : List TimeSeriesDataPoint × List TimeSeriesDataPoint :=
  (handleMissingValues data strategy, data)

/-- The result of `sortDataByDate` together with the post-call contents
of the input array (unchanged: the sort mutates only the spread copy). -/
def sortDataByDateFrame (data : List TimeSeriesDataPoint) :
    List TimeSeriesDataPoint × List TimeSeriesDataPoint :=
  (sortDataByDate data, data)

/-- Whether `handleMissingValues` returns the caller's array object
itself instead of a freshly allocated one, read off the source's return
expressions branch by branch: `data.filter(...)` (remove),
`data.map(...)` (zero) and the fresh `result` array built by
`interpolateMissingValues` all allocate a new array, while the
`default:` branch is `return data` — the input array itself. -/
def handleMissingValuesReturnsAlias (strategy : String) : Bool :=
  match strategy with
  | "remove" => false
  | "zero" => false
  | "interpolate" => false
  | _ => true

/-- `sortDataByDate` always returns the `[...data]` spread copy, never
the caller's array. -/
def sortDataByDateReturnsAlias : Bool := false

/-!
Configuration resolver (graphConfig.ts): chart-type defaults and
`mergeConfig`.  All configuration fields are optional in the TypeScript
interfaces; `Option` models field presence (a field explicitly set to
`undefined` is idealized as absent — no claim exercises the
distinction).  `width` and the bar-gap fields are `number | string`.
-/

/-- A `number | string` configuration value. -/
inductive NumOrStr where
  | num (q : ℚ)
  | str (s : String)
deriving DecidableEq

/-- The `activeDot` field is typed `boolean` but the line default
assigns the object `{ r: 6 }`; both shapes are representable. -/
inductive ActiveDotCfg where
  | bool (b : Bool)
  | robj (r : ℚ)
deriving DecidableEq

/-- Margin record of a chart configuration. -/
structure MarginCfg where
  top : Option ℚ
  right : Option ℚ
  bottom : Option ℚ
  left : Option ℚ
deriving DecidableEq

/-- Embedding of `LineChartConfig` (graphTypes.ts). -/
structure LineChartConfig where
  width : Option NumOrStr
  height : Option ℚ
  margin : Option MarginCfg
  colors : Option (List String)
  showLegend : Option Bool
  showGrid : Option Bool
  responsive : Option Bool
  strokeWidth : Option ℚ
  dot : Option Bool
  activeDot : Option ActiveDotCfg
  connectNulls : Option Bool
deriving DecidableEq

/-- Embedding of `BarChartConfig` (graphTypes.ts). -/
structure BarChartConfig where
  width : Option NumOrStr
  height : Option ℚ
  margin : Option MarginCfg
  colors : Option (List String)
  showLegend : Option Bool
  showGrid : Option Bool
  responsive : Option Bool
  barSize : Option ℚ
  barCategoryGap : Option NumOrStr
  barGap : Option NumOrStr
deriving DecidableEq

/-- Embedding of `AreaChartConfig` (graphTypes.ts). -/
structure AreaChartConfig where
  width : Option NumOrStr
  height : Option ℚ
  margin : Option MarginCfg
  colors : Option (List String)
  showLegend : Option Bool
  showGrid : Option Bool
  responsive : Option Bool
  strokeWidth : Option ℚ
  fillOpacity : Option ℚ
  connectNulls : Option Bool
deriving DecidableEq

/-- Embedding of `DEFAULT_COLORS` (graphConfig.ts). -/
def DEFAULT_COLORS : List String :=
  ["#8884d8", "#82ca9d", "#ffc658", "#ff7300",
   "#0088fe", "#00c49f", "#ffbb28", "#ff8042"]

/-- Embedding of `DEFAULT_MARGIN` (graphConfig.ts). -/
def DEFAULT_MARGIN : MarginCfg :=
  { top := some 20, right := some 30, bottom := some 20, left := some 20 }

/-- Embedding of `DEFAULT_LINE_CHART_CONFIG` (graphConfig.ts). -/
def DEFAULT_LINE_CHART_CONFIG : LineChartConfig :=
  { width := some (.str "100%"), height := some 400,
    margin := some DEFAULT_MARGIN, colors := some DEFAULT_COLORS,
    showLegend := some true, showGrid := some true, responsive := some true,
    strokeWidth := some 2, dot := some false, activeDot := some (.robj 6),
    connectNulls := some false }

/-- Embedding of `DEFAULT_BAR_CHART_CONFIG` (graphConfig.ts). -/
def DEFAULT_BAR_CHART_CONFIG : BarChartConfig :=
  { width := some (.str "100%"), height := some 400,
    margin := some DEFAULT_MARGIN, colors := some DEFAULT_COLORS,
    showLegend := some true, showGrid := some true, responsive := some true,
    barSize := some 20, barCategoryGap := some (.str "10%"), barGap := some (.num 4) }

/-- Embedding of `DEFAULT_AREA_CHART_CONFIG` (graphConfig.ts). -/
def DEFAULT_AREA_CHART_CONFIG : AreaChartConfig :=
  { width := some (.str "100%"), height := some 400,
    margin := some DEFAULT_MARGIN, colors := some DEFAULT_COLORS,
    showLegend := some true, showGrid := some true, responsive := some true,
    strokeWidth := some 2, fillOpacity := some (3 / 5), connectNulls := some false }

/-- The union result type of `getDefaultConfig`. -/
inductive ChartDefault where
  | line (c : LineChartConfig)
  | bar (c : BarChartConfig)
  | area (c : AreaChartConfig)
deriving DecidableEq

/-- Embedding of `getDefaultConfig` (graphConfig.ts): the chart type is a
string at runtime; anything other than the three known cases falls into
the `default:` branch, which returns the line-chart default. -/
def getDefaultConfig (chartType : String) : ChartDefault :=
  match chartType with
  | "line" => .line DEFAULT_LINE_CHART_CONFIG
  | "bar" => .bar DEFAULT_BAR_CHART_CONFIG
  | "area" => .area DEFAULT_AREA_CHART_CONFIG
  | _ => .line DEFAULT_LINE_CHART_CONFIG

/-- JS spread-override of one field: the user's binding wins when the
key is present. -/
def orO (u d : Option α) : Option α :=
  match u with
  | some v => some v
  | none => d

/-- The `margin: { ...defaultConfig.margin, ...userConfig.margin }` part
of `mergeConfig`: key-by-key merge (spreading an absent record
contributes nothing). -/
def mergeMargin (dm um : Option MarginCfg) : MarginCfg :=
  { top := orO (um.bind MarginCfg.top) (dm.bind MarginCfg.top),
    right := orO (um.bind MarginCfg.right) (dm.bind MarginCfg.right),
    bottom := orO (um.bind MarginCfg.bottom) (dm.bind MarginCfg.bottom),
    left := orO (um.bind MarginCfg.left) (dm.bind MarginCfg.left) }

/-- Embedding of `mergeConfig` (graphConfig.ts) at the line-chart
instantiation (the function is generic; `TimeSeriesGraph` uses it at
`LineChartConfig`): `{ ...defaultConfig, ...userConfig, margin: {
...defaultConfig.margin, ...userConfig.margin } }`, or the default
unchanged when no user config is supplied. -/
def mergeConfig (defaultConfig : LineChartConfig)
    (userConfig : Option LineChartConfig) : LineChartConfig :=
  match userConfig with
  | none => defaultConfig
  | some u =>
    { width := orO u.width defaultConfig.width,
      height := orO u.height defaultConfig.height,
      margin := some (mergeMargin defaultConfig.margin u.margin),
      colors := orO u.colors defaultConfig.colors,
      showLegend := orO u.showLegend defaultConfig.showLegend,
      showGrid := orO u.showGrid defaultConfig.showGrid,
      responsive := orO u.responsive defaultConfig.responsive,
      strokeWidth := orO u.strokeWidth defaultConfig.strokeWidth,
      dot := orO u.dot defaultConfig.dot,
      activeDot := orO u.activeDot defaultConfig.activeDot,
      connectNulls := orO u.connectNulls defaultConfig.connectNulls }

/-- An all-absent partial configuration (the empty override object). -/
def emptyConfig : LineChartConfig :=
  { width := none, height := none, margin := none, colors := none,
    showLegend := none, showGrid := none, responsive := none,
    strokeWidth := none, dot := none, activeDot := none, connectNulls := none }

example :
    mergeConfig DEFAULT_LINE_CHART_CONFIG
      (some { emptyConfig with
              margin := some { top := some 5, right := none, bottom := none, left := none } }) =
      { DEFAULT_LINE_CHART_CONFIG with
        margin := some { top := some 5, right := some 30, bottom := some 20, left := some 20 } } := by
  decide

/-!
Lemmas about `interpGo` for the idempotence claim.
-/

/-- On a fully valid (finite-valued) suffix, the interpolation loop with a
contiguous last-valid index reproduces the suffix unchanged. -/
theorem interpGo_all_fin (data : List TimeSeriesDataPoint) :
    ∀ (rest : List TimeSeriesDataPoint) (i : ℕ) (lv : JsNum),
      (∀ p ∈ rest, ∃ q : ℚ, p.value = .num (.fin q)) →
      interpGo data (i + 1) (some (i, lv)) rest = rest := by
  intro rest
  induction rest with
  | nil => intro i lv _; rfl
  | cons p t ih =>
    intro i lv h
    obtain ⟨q, hq⟩ := h p (List.mem_cons_self p t)
    have hlt : ¬ (i + 1 < i + 1) := Nat.lt_irrefl _
    simp only [interpGo, hq, jsNumIsNaN, Bool.false_eq_true, if_false, hlt,
      List.nil_append, List.cons.injEq, true_and]
    exact ih (i + 1) (.fin q) (fun p' hp' => h p' (List.mem_cons_of_mem p hp'))

/-- C9: the interpolate strategy is idempotent on gap-free data — on a
point sequence whose every value is a finite number, `handleMissingValues
data 'interpolate'` returns the sequence unchanged. -/
theorem C9_interpolate_idempotent :
    ∀ data : List TimeSeriesDataPoint,
      (∀ p ∈ data, ∃ q : ℚ, p.value = .num (.fin q)) →
      handleMissingValues data "interpolate" = data := by
  intro data h
  have hm : handleMissingValues data "interpolate" = interpolateMissingValues data := rfl
  rw [hm]
  unfold interpolateMissingValues
  cases data with
  | nil => rfl
  | cons p t =>
    obtain ⟨q, hq⟩ := h p (List.mem_cons_self p t)
    simp only [interpGo, hq, jsNumIsNaN, Bool.false_eq_true, if_false,
      List.nil_append, List.cons.injEq, true_and]
    exact interpGo_all_fin (p :: t) t 0 (.fin q)
      (fun p' hp' => h p' (List.mem_cons_of_mem p hp'))

/-- Witness for C9 at a concrete two-point gap-free series. -/
theorem C9_interpolate_idempotent_witness :
    handleMissingValues
      [⟨"2020-01-01", .num (.fin 1)⟩, ⟨"2020-01-02", .num (.fin 2)⟩] "interpolate" =
      [⟨"2020-01-01", .num (.fin 1)⟩, ⟨"2020-01-02", .num (.fin 2)⟩] :=
  C9_interpolate_idempotent _ (by
    intro p hp
    simp only [List.mem_cons, List.not_mem_nil, or_false] at hp
    rcases hp with rfl | rfl
    · exact ⟨1, rfl⟩
    · exact ⟨2, rfl⟩)

/-- C2 (code bug): evaluating `handleMissingValues` with the
`interpolate` strategy on the sorted three-point series
`[{2020-01-01, 5}, {2020-01-02, null}, {2020-01-03, 7}]` returns FOUR
points: the absent point is pushed unchanged by the `else` branch of the
loop, and the gap-fill loop then pushes an interpolated duplicate (value
6, the correct `a + (b-a)/2` for a one-point gap) for the same date
after it.  The spec requires the absent run to be replaced in place and
the output length to equal the input length (3); the implementation
violates this for every nonempty interior gap. -/
theorem C2_interpolate_length_bug :
    handleMissingValues
      [⟨"2020-01-01", .num (.fin 5)⟩, ⟨"2020-01-02", .null⟩,
       ⟨"2020-01-03", .num (.fin 7)⟩] "interpolate" =
      [⟨"2020-01-01", .num (.fin 5)⟩, ⟨"2020-01-02", .null⟩,
       ⟨"2020-01-02", .num (.fin 6)⟩, ⟨"2020-01-03", .num (.fin 7)⟩] ∧
    (handleMissingValues
      [⟨"2020-01-01", .num (.fin 5)⟩, ⟨"2020-01-02", .null⟩,
       ⟨"2020-01-03", .num (.fin 7)⟩] "interpolate").length = 4 := by
  exact ⟨by decide, by decide⟩

/-- C3 (counterexample): an unrecognized strategy string does NOT behave
as `remove` — on `[{2020-01-01, null}]` the strategy `"bogus"` returns
the input unchanged (the `default:` branch), while `remove` drops the
absent point. -/
theorem C3_unknown_strategy_counterexample :
    handleMissingValues [⟨"2020-01-01", JsVal.null⟩] "bogus" =
      [⟨"2020-01-01", JsVal.null⟩] ∧
    handleMissingValues [⟨"2020-01-01", JsVal.null⟩] "remove" = [] := by
  exact ⟨by decide, by decide⟩

/-- C3 (amended): a strategy string other than `remove`, `zero` and
`interpolate` returns the input sequence unchanged; the `remove` default
of the TypeScript signature applies only when the argument is omitted. -/
theorem C3_unknown_strategy_identity :
    ∀ (data : List TimeSeriesDataPoint) (s : String),
      s ≠ "remove" → s ≠ "zero" → s ≠ "interpolate" →
      handleMissingValues data s = data := by
  intro data s h1 h2 h3
  unfold handleMissingValues
  split <;> simp_all

/-- Witness for the amended C3 at the concrete strategy `"bogus"`. -/
theorem C3_unknown_strategy_identity_witness :
    handleMissingValues [⟨"2020-01-01", JsVal.null⟩] "bogus" =
      [⟨"2020-01-01", JsVal.null⟩] :=
  C3_unknown_strategy_identity _ _ (by decide) (by decide) (by decide)

/-- C8 (counterexample): `parseDate` on the unparseable string
`"not-a-date"` does not signal any error — it returns normally, and the
value it returns is the Invalid-Date sentinel (NaN time value), which is
itself a sentinel date value, distinct from epoch zero. -/
theorem C8_parseDate_counterexample :
    parseDate (DateInput.str "not-a-date") = ⟨none⟩ ∧
    (⟨none⟩ : JsDate) ≠ ⟨some 0⟩ := by
  exact ⟨by decide, by decide⟩

/-- C8 (amended): date canonicalization never raises: on an unparseable
string `parseDate` returns the Invalid Date object (NaN time value); in
particular it never coerces the input to epoch zero, the current time,
or any other actual timestamp. -/
theorem C8_parseDate_amended :
    ∀ s : String, jsParseDateString s = none →
      parseDate (DateInput.str s) = ⟨none⟩ ∧
      ∀ t : ℤ, parseDate (DateInput.str s) ≠ ⟨some t⟩ := by
  intro s h
  refine ⟨?_, ?_⟩
  · show (⟨jsParseDateString s⟩ : JsDate) = ⟨none⟩
    rw [h]
  · intro t hc
    have : jsParseDateString s = some t := congrArg JsDate.time hc
    rw [h] at this
    exact Option.noConfusion this

/-- Witness for the amended C8 at the concrete string `"not-a-date"`. -/
theorem C8_parseDate_amended_witness :
    parseDate (DateInput.str "not-a-date") = ⟨none⟩ ∧
    ∀ t : ℤ, parseDate (DateInput.str "not-a-date") ≠ ⟨some t⟩ :=
  C8_parseDate_amended "not-a-date" (by decide)

/-- C10 (counterexample): the claim quantifies over every strategy and
requires a FRESH sequence to be returned, but for an unrecognized
strategy string the `default:` branch is `return data` — the returned
sequence is the caller's input array itself, not a fresh one (first
conjunct, via the branch-wise aliasing summary of the source's return
expressions), and indeed evaluates to the unchanged input (second
conjunct). -/
theorem C10_frame_counterexample :
    handleMissingValuesReturnsAlias "bogus" = true ∧
    handleMissingValues [⟨"2020-01-01", JsVal.null⟩] "bogus" =
      [⟨"2020-01-01", JsVal.null⟩] := by
  exact ⟨rfl, by decide⟩

/-- C10 (amended): neither the missing-value policy (any strategy
string) nor the date sort mutates its input — the contents of the
caller's array after the call are element-wise the input, in the
original order and length (the `Frame` embeddings record the post-call
input contents prescribed by the JS primitives used:
`filter`/`map`/object-spread/`push` allocate fresh values, and the only
in-place sort acts on the `[...data]` copy).  The three recognized
strategies and the date sort return freshly allocated arrays; an
unrecognized strategy instead returns the input array itself
(aliased, unchanged). -/
theorem C10_frame_amended :
    (∀ (data : List TimeSeriesDataPoint) (strategy : String),
      (handleMissingValuesFrame data strategy).2 = data ∧
      (sortDataByDateFrame data).2 = data) ∧
    (handleMissingValuesReturnsAlias "remove" = false ∧
     handleMissingValuesReturnsAlias "zero" = false ∧
     handleMissingValuesReturnsAlias "interpolate" = false ∧
     sortDataByDateReturnsAlias = false) ∧
    (∀ s : String, s ≠ "remove" → s ≠ "zero" → s ≠ "interpolate" →
      handleMissingValuesReturnsAlias s = true) := by
  refine ⟨fun _ _ => ⟨rfl, rfl⟩, ⟨rfl, rfl, rfl, rfl⟩, ?_⟩
  intro s h1 h2 h3
  unfold handleMissingValuesReturnsAlias
  split <;> simp_all

/-- Witness for the amended C10 at the concrete unrecognized strategy
`"bogus"`. -/
theorem C10_frame_amended_witness :
    handleMissingValuesReturnsAlias "bogus" = true :=
  C10_frame_amended.2.2 "bogus" (by decide) (by decide) (by decide)

/-!
Value-formatter claim.  `formatValueClaimC4` transcribes the amended C4
rule list (first match wins, in order): absent or NaN renders "N/A"
(±Infinity is NOT caught by the guard — the source tests `isNaN`, which
is false on Infinity, so Infinity flows on into the unit/magnitude
rules); a percent hint (case-insensitive substring "percent", or the
caseless symbol "%") renders two decimals plus "%"; an index hint
renders two decimals; then magnitude suffixing at 1e9/1e6/1e3; else two
decimals.
-/

/-- Case-insensitive substring test (the claim's "case-insensitive
substring match"). -/
def containsCI (s pat : String) : Bool :=
  jsIncludes (jsToLower s) (jsToLower pat)

/-- The amended claim's percent-hint predicate. -/
def claimPercentHint : Option String → Bool
  | none => false
  | some u => containsCI u "percent" || jsIncludes u "%"

/-- The amended claim's index-hint predicate. -/
def claimIndexHint : Option String → Bool
  | none => false
  | some u => containsCI u "index"

/-- Claim-side transcription of the amended C4 formatting rules. -/
def formatValueClaimC4 (value : JsVal) (units : Option String) : String :=
  match value with
  | .null => "N/A"
  | .num .nan => "N/A"
  | .num x =>
    if claimPercentHint units then jsToFixed2 x ++ "%"
    else if claimIndexHint units then jsToFixed2 x
    else if jsAbsGe x 1000000000 then jsToFixed2 (jsDiv x 1000000000) ++ "B"
    else if jsAbsGe x 1000000 then jsToFixed2 (jsDiv x 1000000) ++ "M"
    else if jsAbsGe x 1000 then jsToFixed2 (jsDiv x 1000) ++ "K"
    else jsToFixed2 x

/-- The claim-side percent predicate coincides with the source's test. -/
theorem claimPercentHint_eq (u : Option String) :
    claimPercentHint u = unitsPercent u := by
  cases u with
  | none => rfl
  | some s =>
    show (containsCI s "percent" || jsIncludes s "%") = _
    unfold containsCI
    have h : jsToLower "percent" = "percent" := by decide
    rw [h]
    rfl

/-- The claim-side index predicate coincides with the source's test. -/
theorem claimIndexHint_eq (u : Option String) :
    claimIndexHint u = unitsIndex u := by
  cases u with
  | none => rfl
  | some s =>
    show containsCI s "index" = _
    unfold containsCI
    have h : jsToLower "index" = "index" := by decide
    rw [h]
    rfl

/-- C4 (counterexample): `Infinity` is a non-finite numeric value, yet
`formatValue(Infinity, undefined)` renders `"InfinityB"`, not the
`"N/A"` the claim requires for non-finite values: the guard tests
`isNaN`, which is false on ±Infinity, so Infinity reaches the
magnitude branch (`|∞| ≥ 1e9`, `(∞/1e9).toFixed(2) = "Infinity"`). -/
theorem C4_formatValue_counterexample :
    formatValue (.num .pinf) none = "InfinityB" ∧ "InfinityB" ≠ "N/A" := by
  exact ⟨by decide, by decide⟩

/-- C4 (amended): `formatValue` is pure and total and applies, first
match wins: absent or NaN yields "N/A" (±Infinity is not caught and
falls through to the later rules); a percent hint yields two decimals
plus "%"; an index hint two decimals; then B/M/K magnitude suffixing;
else two decimals — together with the claim's three concrete examples. -/
theorem C4_formatValue_amended :
    (∀ (v : JsVal) (u : Option String), formatValue v u = formatValueClaimC4 v u) ∧
    formatValue (.num (.fin 1500000000)) none = "1.50B" ∧
    formatValue .null (some "percent") = "N/A" ∧
    formatValue (.num (.fin (421 / 10))) (some "Index") = "42.10" := by
  refine ⟨?_, by decide, by decide, by decide⟩
  intro v u
  cases v with
  | null => rfl
  | num x =>
    cases x <;>
      simp only [formatValue, formatValueClaimC4, claimPercentHint_eq,
        claimIndexHint_eq, jsNumIsNaN] <;> rfl

/-- C5 (counterexample): `Infinity` is non-finite, but `remove` keeps
the point `{2020-01-01, Infinity}` (the claim requires dropping it) and
`zero` leaves its value Infinity (the claim requires replacing it by 0):
the validity test is `!isNaN(v)`, which Infinity passes. -/
theorem C5_remove_zero_counterexample :
    handleMissingValues [⟨"2020-01-01", .num .pinf⟩] "remove" =
      [⟨"2020-01-01", .num .pinf⟩] ∧
    handleMissingValues [⟨"2020-01-01", .num .pinf⟩] "zero" =
      [⟨"2020-01-01", .num .pinf⟩] := by
  exact ⟨by decide, by decide⟩

/-- C5 (amended): `remove` drops exactly the points whose value is
absent (null) or NaN — ±Infinity counts as valid and is retained —
preserving relative order (sublist) with result length at most the
input length; `zero` replaces exactly the null/NaN values by 0, keeping
length, order and every date field; and the claim's concrete
three-point example behaves as stated. -/
theorem C5_remove_zero_amended :
    (∀ data : List TimeSeriesDataPoint,
      (handleMissingValues data "remove").Sublist data ∧
      (∀ p ∈ handleMissingValues data "remove", isValidNum p.value = true) ∧
      (∀ p ∈ data, isValidNum p.value = true →
        p ∈ handleMissingValues data "remove") ∧
      (handleMissingValues data "remove").length ≤ data.length ∧
      handleMissingValues data "zero" =
        data.map (fun p =>
          if isValidNum p.value then p else { p with value := .num (.fin 0) }) ∧
      (handleMissingValues data "zero").length = data.length ∧
      (handleMissingValues data "zero").map TimeSeriesDataPoint.date =
        data.map TimeSeriesDataPoint.date) ∧
    handleMissingValues
      [⟨"t0", .num (.fin 5)⟩, ⟨"t1", .null⟩, ⟨"t2", .num (.fin 7)⟩] "remove" =
      [⟨"t0", .num (.fin 5)⟩, ⟨"t2", .num (.fin 7)⟩] ∧
    handleMissingValues
      [⟨"t0", .num (.fin 5)⟩, ⟨"t1", .null⟩, ⟨"t2", .num (.fin 7)⟩] "zero" =
      [⟨"t0", .num (.fin 5)⟩, ⟨"t1", .num (.fin 0)⟩, ⟨"t2", .num (.fin 7)⟩] := by
  refine ⟨?_, by decide, by decide⟩
  intro data
  have hrem : handleMissingValues data "remove" =
      data.filter (fun p => isValidNum p.value) := rfl
  have hfun : (fun p : TimeSeriesDataPoint =>
        { p with value := if !isValidNum p.value then .num (.fin 0) else p.value }) =
      (fun p : TimeSeriesDataPoint =>
        if isValidNum p.value then p else { p with value := .num (.fin 0) }) := by
    funext p
    by_cases h : isValidNum p.value
    · simp [h]
    · simp [h]
  have hz : handleMissingValues data "zero" =
      data.map (fun p =>
        if isValidNum p.value then p else { p with value := .num (.fin 0) }) := by
    show data.map _ = _
    rw [hfun]
  refine ⟨?_, ?_, ?_, ?_, hz, ?_, ?_⟩
  · rw [hrem]; exact List.filter_sublist data
  · intro p hp
    rw [hrem] at hp
    exact (List.mem_filter.mp hp).2
  · intro p hp hv
    rw [hrem]
    exact List.mem_filter.mpr ⟨hp, hv⟩
  · rw [hrem]; exact (List.filter_sublist data).length_le
  · rw [hz, List.length_map]
  · rw [hz, List.map_map]
    congr 1
    funext p
    by_cases h : isValidNum p.value
    · simp [h]
    · simp [h]

/-- Witness for the amended C5: the valid head point survives `remove`
on a concrete list (discharging the membership and validity
hypotheses). -/
theorem C5_remove_zero_amended_witness :
    (⟨"t0", .num (.fin 5)⟩ : TimeSeriesDataPoint) ∈
      handleMissingValues [⟨"t0", .num (.fin 5)⟩, ⟨"t1", .null⟩] "remove" :=
  (C5_remove_zero_amended.1 [⟨"t0", .num (.fin 5)⟩, ⟨"t1", .null⟩]).2.2.1
    ⟨"t0", .num (.fin 5)⟩ (by decide) (by decide)

/-- C7: configuration resolution is a field-level shallow merge except
for `margin`, which is merged key-by-key (an override margin key wins;
an unspecified one keeps the default), and an unknown chart type falls
back to the line-chart default rather than erroring; in particular
resolving `'line'` with override `{margin: {top: 5}}` keeps the default
right/bottom/left margins and all other fields, overriding only the
top margin. -/
theorem C7_config_merge :
    (∀ s : String, s ≠ "line" → s ≠ "bar" → s ≠ "area" →
      getDefaultConfig s = .line DEFAULT_LINE_CHART_CONFIG) ∧
    (∀ (d u : LineChartConfig) (m : MarginCfg) (q : ℚ),
      u.margin = some m → m.top = some q →
      (mergeConfig d (some u)).margin.bind MarginCfg.top = some q) ∧
    (∀ (d u : LineChartConfig) (m : MarginCfg),
      u.margin = some m → m.right = none →
      (mergeConfig d (some u)).margin.bind MarginCfg.right =
        d.margin.bind MarginCfg.right) ∧
    (∀ (d u : LineChartConfig) (b : Bool),
      u.showLegend = some b → (mergeConfig d (some u)).showLegend = some b) ∧
    (∀ d u : LineChartConfig,
      u.showLegend = none → (mergeConfig d (some u)).showLegend = d.showLegend) ∧
    mergeConfig DEFAULT_LINE_CHART_CONFIG
      (some { emptyConfig with
              margin := some { top := some 5, right := none, bottom := none, left := none } }) =
      { DEFAULT_LINE_CHART_CONFIG with
        margin := some { top := some 5, right := some 30, bottom := some 20, left := some 20 } } := by
  refine ⟨?_, ?_, ?_, ?_, ?_, by decide⟩
  · intro s h1 h2 h3
    unfold getDefaultConfig
    split <;> simp_all
  · intro d u m q hm ht
    simp [mergeConfig, mergeMargin, hm, ht, orO]
  · intro d u m hm hr
    simp [mergeConfig, mergeMargin, hm, hr, orO]
  · intro d u b hb
    simp [mergeConfig, hb, orO]
  · intro d u hb
    simp [mergeConfig, hb, orO]

/-- Witness for C7: the unknown chart type `'scatter'` resolves to the
line default, and a concrete margin-top override wins. -/
theorem C7_config_merge_witness :
    getDefaultConfig "scatter" = .line DEFAULT_LINE_CHART_CONFIG ∧
    (mergeConfig DEFAULT_LINE_CHART_CONFIG
      (some { emptyConfig with
              margin := some { top := some 5, right := none, bottom := none, left := none } })).margin.bind
        MarginCfg.top = some 5 :=
  ⟨C7_config_merge.1 "scatter" (by decide) (by decide) (by decide),
   C7_config_merge.2.1 DEFAULT_LINE_CHART_CONFIG
     { emptyConfig with
       margin := some { top := some 5, right := none, bottom := none, left := none } }
     { top := some 5, right := none, bottom := none, left := none } 5 rfl rfl⟩

/-!
Infrastructure for the alignment claims: the nested dataset/point loops
of `chartData` flattened to one item list, the key-set evolution of the
`Map`, and invariants on the rows.
-/

/-- One loop iteration's data: (dataset id, dataset metadata, point). -/
abbrev AlignItem := String × Option Metadata × TimeSeriesDataPoint

/-- `addPoint` uncurried over one item. -/
def stepItem (dm : DataMap) (it : AlignItem) : DataMap :=
  addPoint dm it.1 it.2.1 it.2.2

/-- All loop items of an alignment call, in iteration order. -/
def alignItems (datasets : List TimeSeriesDataset) : List AlignItem :=
  datasets.flatMap (fun ds => ds.data.map (fun p => (ds.id, ds.metadata, p)))

/-- The date string of an item. -/
def itemDate (it : AlignItem) : String := it.2.2.date

/-- The key list of the data map, in insertion order. -/
def dmKeys (dm : DataMap) : List String := dm.map Prod.fst

/-- First-occurrence key accumulation: the evolution of the `Map`'s key
set over a sequence of date strings. -/
def insKeys (ks ds : List String) : List String :=
  ds.foldl (fun ks d => if d ∈ ks then ks else ks ++ [d]) ks

theorem buildDataMap_eq_foldl :
    ∀ (dss : List TimeSeriesDataset) (dm : DataMap),
      dss.foldl (fun dm ds =>
        ds.data.foldl (fun dm p => addPoint dm ds.id ds.metadata p) dm) dm =
      (alignItems dss).foldl stepItem dm := by
  intro dss
  induction dss with
  | nil => intro dm; rfl
  | cons ds rest ih =>
    intro dm
    show rest.foldl _ (ds.data.foldl _ dm) = _
    rw [ih]
    have h1 : alignItems (ds :: rest) =
        ds.data.map (fun p => (ds.id, ds.metadata, p)) ++ alignItems rest := by
      simp [alignItems]
    rw [h1, List.foldl_append, List.foldl_map]
    rfl

theorem buildDataMap_items (dss : List TimeSeriesDataset) :
    buildDataMap dss = (alignItems dss).foldl stepItem [] :=
  buildDataMap_eq_foldl dss []

theorem alignItems_map_date (dss : List TimeSeriesDataset) :
    (alignItems dss).map itemDate = allDateStrs dss := by
  simp [alignItems, allDateStrs, itemDate, List.map_flatMap, List.map_map]
  rfl

theorem mem_alignItems {dss : List TimeSeriesDataset} {it : AlignItem}
    (h : it ∈ alignItems dss) :
    ∃ ds ∈ dss, it.1 = ds.id ∧ it.2.1 = ds.metadata ∧ it.2.2 ∈ ds.data := by
  simp only [alignItems, List.mem_flatMap, List.mem_map] at h
  obtain ⟨ds, hds, p, hp, hit⟩ := h
  exact ⟨ds, hds, by rw [← hit], by rw [← hit], by rw [← hit]; exact hp⟩

theorem dmHas_iff (dm : DataMap) (k : String) :
    dmHas dm k = true ↔ k ∈ dmKeys dm := by
  simp [dmHas, dmKeys, List.any_eq_true, List.mem_map, beq_iff_eq]

theorem dmKeys_dmUpdate (dm : DataMap) (k : String) (f : Row → Row) :
    dmKeys (dmUpdate dm k f) = dmKeys dm := by
  induction dm with
  | nil => rfl
  | cons kv rest ih =>
    unfold dmUpdate
    by_cases h : kv.1 = k
    · rw [if_pos h]; rfl
    · rw [if_neg h]
      show kv.1 :: dmKeys (dmUpdate rest k f) = kv.1 :: dmKeys rest
      rw [ih]

theorem dmKeys_addPoint (dm : DataMap) (dsId : String) (md : Option Metadata)
    (p : TimeSeriesDataPoint) :
    dmKeys (addPoint dm dsId md p) =
      if p.date ∈ dmKeys dm then dmKeys dm else dmKeys dm ++ [p.date] := by
  unfold addPoint
  by_cases h : p.date ∈ dmKeys dm
  · rw [if_pos ((dmHas_iff dm p.date).mpr h), if_pos h]
    cases md <;> simp [dmKeys_dmUpdate]
  · have hb : ¬ (dmHas dm p.date = true) := fun hc => h ((dmHas_iff dm p.date).mp hc)
    rw [if_neg hb, if_neg h]
    have happ : dmKeys (dm ++ [(p.date, [("date", Entry.str p.date)])]) =
        dmKeys dm ++ [p.date] := by simp [dmKeys]
    cases md with
    | none =>
      show dmKeys (dmUpdate _ _ _) = _
      rw [dmKeys_dmUpdate, happ]
    | some m =>
      show dmKeys (dmUpdate (dmUpdate _ _ _) _ _) = _
      rw [dmKeys_dmUpdate, dmKeys_dmUpdate, happ]

theorem dmKeys_foldl :
    ∀ (its : List AlignItem) (dm : DataMap),
      dmKeys (its.foldl stepItem dm) = insKeys (dmKeys dm) (its.map itemDate) := by
  intro its
  induction its with
  | nil => intro dm; rfl
  | cons it rest ih =>
    intro dm
    show dmKeys (rest.foldl stepItem (stepItem dm it)) = _
    rw [ih]
    show _ = insKeys (dmKeys dm) (itemDate it :: rest.map itemDate)
    have h2 : insKeys (dmKeys dm) (itemDate it :: rest.map itemDate) =
        insKeys (if itemDate it ∈ dmKeys dm then dmKeys dm
                 else dmKeys dm ++ [itemDate it]) (rest.map itemDate) := rfl
    rw [h2]
    congr 1
    exact dmKeys_addPoint dm it.1 it.2.1 it.2.2

theorem mem_insKeys :
    ∀ (ds ks : List String) (a : String), a ∈ insKeys ks ds ↔ a ∈ ks ∨ a ∈ ds := by
  intro ds
  induction ds with
  | nil => intro ks a; simp [insKeys]
  | cons d rest ih =>
    intro ks a
    show a ∈ insKeys (if d ∈ ks then ks else ks ++ [d]) rest ↔ _
    rw [ih]
    by_cases h : d ∈ ks
    · rw [if_pos h]
      simp only [List.mem_cons]
      constructor
      · rintro (h1 | h1)
        · exact Or.inl h1
        · exact Or.inr (Or.inr h1)
      · rintro (h1 | rfl | h1)
        · exact Or.inl h1
        · exact Or.inl h
        · exact Or.inr h1
    · rw [if_neg h]
      simp only [List.mem_append, List.mem_singleton, List.mem_cons]
      tauto

theorem insKeys_nodup :
    ∀ (ds ks : List String), ks.Nodup → (insKeys ks ds).Nodup := by
  intro ds
  induction ds with
  | nil => intro ks h; exact h
  | cons d rest ih =>
    intro ks h
    show (insKeys (if d ∈ ks then ks else ks ++ [d]) rest).Nodup
    by_cases hd : d ∈ ks
    · rw [if_pos hd]; exact ih ks h
    · rw [if_neg hd]
      refine ih _ ?_
      rw [List.nodup_append]
      refine ⟨h, List.nodup_singleton d, ?_⟩
      intro a ha hb
      rw [List.mem_singleton] at hb
      subst hb
      exact hd ha

theorem insKeys_length_eq_dedup (ds : List String) :
    (insKeys [] ds).length = ds.dedup.length := by
  have h1 : (insKeys [] ds).Nodup := insKeys_nodup ds [] List.nodup_nil
  have h2 : (insKeys [] ds).toFinset = ds.toFinset := by
    ext a
    simp [List.mem_toFinset, mem_insKeys]
  calc (insKeys [] ds).length = (insKeys [] ds).toFinset.card :=
        (List.toFinset_card_of_nodup h1).symm
    _ = ds.toFinset.card := by rw [h2]
    _ = ds.dedup.length := List.card_toFinset ds

/-!
Row-level invariants of the data map.
-/

theorem rLookup_recordSet_ne (k k1 : String) (e : Entry) (h : k ≠ k1) :
    ∀ r : Row, rLookup (recordSet r k e) k1 = rLookup r k1 := by
  intro r
  induction r with
  | nil => simp [recordSet, rLookup, h]
  | cons kv rest ih =>
    unfold recordSet
    by_cases h1 : kv.1 = k
    · rw [if_pos h1]
      have hne : k ≠ k1 := h
      have hne2 : kv.1 ≠ k1 := h1 ▸ hne
      simp [rLookup, hne, hne2]
    · rw [if_neg h1]
      by_cases h2 : kv.1 = k1
      · simp [rLookup, h2]
      · simp [rLookup, h2, ih]

theorem rLookup_recordSet_shape (k key : String) (e e1 : Entry) :
    ∀ r : Row, rLookup (recordSet r k e) key = some e1 →
      (key = k ∧ e1 = e) ∨ rLookup r key = some e1 := by
  intro r
  induction r with
  | nil =>
    intro h
    simp only [recordSet, rLookup] at h
    by_cases hk : k = key
    · rw [if_pos hk] at h
      exact Or.inl ⟨hk.symm, (Option.some.injEq ..).mp h |>.symm⟩
    · rw [if_neg hk] at h
      exact Option.noConfusion h
  | cons kv rest ih =>
    intro h
    unfold recordSet at h
    by_cases h1 : kv.1 = k
    · rw [if_pos h1] at h
      simp only [rLookup] at h
      by_cases hk : k = key
      · rw [if_pos hk] at h
        exact Or.inl ⟨hk.symm, ((Option.some.injEq ..).mp h).symm⟩
      · rw [if_neg hk] at h
        refine Or.inr ?_
        have h2 : kv.1 ≠ key := h1 ▸ (fun hc => hk hc)
        simp [rLookup, h2, h]
    · rw [if_neg h1] at h
      simp only [rLookup] at h
      by_cases h2 : kv.1 = key
      · rw [if_pos h2] at h
        refine Or.inr ?_
        simp [rLookup, h2, h]
      · rw [if_neg h2] at h
        rcases ih h with h3 | h3
        · exact Or.inl h3
        · refine Or.inr ?_
          simp [rLookup, h2, h3]

/-- Pointwise preservation through `dmUpdate`. -/
theorem dmUpdate_pres (P : String × Row → Prop) (k : String) (f : Row → Row) :
    ∀ dm : DataMap, (∀ kr ∈ dm, P kr) →
      (∀ r0 : Row, (k, r0) ∈ dm → P (k, f r0)) →
      ∀ kr ∈ dmUpdate dm k f, P kr := by
  intro dm
  induction dm with
  | nil => intro _ _ kr hkr; exact absurd hkr (List.not_mem_nil kr)
  | cons kv rest ih =>
    intro hall hupd kr hkr
    unfold dmUpdate at hkr
    by_cases h1 : kv.1 = k
    · rw [if_pos h1] at hkr
      rcases List.mem_cons.mp hkr with rfl | hkr
      · have : (k, kv.2) ∈ kv :: rest := by
          rw [← h1]
          exact List.mem_cons_self kv rest
        have := hupd kv.2 this
        rw [h1]
        exact this
      · exact hall kr (List.mem_cons_of_mem kv hkr)
    · rw [if_neg h1] at hkr
      rcases List.mem_cons.mp hkr with rfl | hkr
      · exact hall kv (List.mem_cons_self kv rest)
      · exact ih (fun x hx => hall x (List.mem_cons_of_mem kv hx))
          (fun r0 hr0 => hupd r0 (List.mem_cons_of_mem kv hr0)) kr hkr

/-- The per-row invariant of the strong date-entry lemma: the `date`
field of every row is (still) the row's map key. -/
def DateOkMap (dm : DataMap) : Prop :=
  ∀ kr ∈ dm, rLookup kr.2 "date" = some (.str kr.1)

/-- The weak unconditional variant: IF the `date` field of a row is a
string, it is the row's map key (a dataset with id `"date"` can
overwrite the field, but only with a point value, never a string). -/
def DateOkW (dm : DataMap) : Prop :=
  ∀ kr ∈ dm, ∀ s, rLookup kr.2 "date" = some (.str s) → s = kr.1

theorem meta_key_ne_date (id : String) : id ++ "_metadata" ≠ "date" := by
  intro h
  have hl : (id ++ "_metadata").length = ("date" : String).length := by rw [h]
  rw [String.length_append] at hl
  have h9 : ("_metadata" : String).length = 9 := by decide
  have h4 : ("date" : String).length = 4 := by decide
  omega

theorem dateOk_addPoint (dm : DataMap) (dsId : String) (md : Option Metadata)
    (p : TimeSeriesDataPoint) (hid : dsId ≠ "date") (h : DateOkMap dm) :
    DateOkMap (addPoint dm dsId md p) := by
  unfold addPoint
  have h1 : DateOkMap (if dmHas dm p.date then dm
      else dm ++ [(p.date, [("date", Entry.str p.date)])]) := by
    by_cases hh : dmHas dm p.date
    · rw [if_pos hh]; exact h
    · rw [if_neg hh]
      intro kr hkr
      rcases List.mem_append.mp hkr with hkr | hkr
      · exact h kr hkr
      · rw [List.mem_singleton] at hkr
        subst hkr
        rfl
  have h2 : DateOkMap (dmUpdate (if dmHas dm p.date then dm
      else dm ++ [(p.date, [("date", Entry.str p.date)])]) p.date
      (fun r => recordSet r dsId (Entry.val p.value))) := by
    refine dmUpdate_pres _ _ _ _ h1 ?_
    intro r0 hr0
    show rLookup (recordSet r0 dsId (Entry.val p.value)) "date" = some (Entry.str p.date)
    rw [rLookup_recordSet_ne dsId "date" _ hid]
    exact h1 (p.date, r0) hr0
  cases md with
  | none => exact h2
  | some m =>
    refine dmUpdate_pres _ _ _ _ h2 ?_
    intro r0 hr0
    show rLookup (recordSet r0 (dsId ++ "_metadata") (Entry.meta m)) "date" =
      some (Entry.str p.date)
    rw [rLookup_recordSet_ne _ "date" _ (meta_key_ne_date dsId)]
    exact h2 (p.date, r0) hr0

theorem dateOk_foldl :
    ∀ (its : List AlignItem) (dm : DataMap),
      (∀ it ∈ its, it.1 ≠ "date") → DateOkMap dm →
      DateOkMap (its.foldl stepItem dm) := by
  intro its
  induction its with
  | nil => intro dm _ h; exact h
  | cons it rest ih =>
    intro dm hids h
    exact ih (stepItem dm it) (fun x hx => hids x (List.mem_cons_of_mem it hx))
      (dateOk_addPoint dm it.1 it.2.1 it.2.2 (hids it (List.mem_cons_self it rest)) h)

theorem dateOkW_addPoint (dm : DataMap) (dsId : String) (md : Option Metadata)
    (p : TimeSeriesDataPoint) (h : DateOkW dm) :
    DateOkW (addPoint dm dsId md p) := by
  unfold addPoint
  have h1 : DateOkW (if dmHas dm p.date then dm
      else dm ++ [(p.date, [("date", Entry.str p.date)])]) := by
    by_cases hh : dmHas dm p.date
    · rw [if_pos hh]; exact h
    · rw [if_neg hh]
      intro kr hkr s hs
      rcases List.mem_append.mp hkr with hkr | hkr
      · exact h kr hkr s hs
      · rw [List.mem_singleton] at hkr
        subst hkr
        simp only [rLookup, if_pos rfl] at hs
        exact ((Entry.str.injEq ..).mp ((Option.some.injEq ..).mp hs)).symm
  have h2 : DateOkW (dmUpdate (if dmHas dm p.date then dm
      else dm ++ [(p.date, [("date", Entry.str p.date)])]) p.date
      (fun r => recordSet r dsId (Entry.val p.value))) := by
    refine dmUpdate_pres _ _ _ _ h1 ?_
    intro r0 hr0 s hs
    rcases rLookup_recordSet_shape dsId "date" _ _ r0 hs with ⟨_, he⟩ | hl
    · exact Entry.noConfusion he
    · exact h1 (p.date, r0) hr0 s hl
  cases md with
  | none => exact h2
  | some m =>
    refine dmUpdate_pres _ _ _ _ h2 ?_
    intro r0 hr0 s hs
    rcases rLookup_recordSet_shape _ "date" _ _ r0 hs with ⟨_, he⟩ | hl
    · exact Entry.noConfusion he
    · exact h2 (p.date, r0) hr0 s hl

theorem dateOkW_foldl :
    ∀ (its : List AlignItem) (dm : DataMap),
      DateOkW dm → DateOkW (its.foldl stepItem dm) := by
  intro its
  induction its with
  | nil => intro dm h; exact h
  | cons it rest ih =>
    intro dm h
    exact ih (stepItem dm it) (dateOkW_addPoint dm it.1 it.2.1 it.2.2 h)

/-- The key-provenance invariant: every field of every row is either the
`date` field or was written under a dataset id (or its `_metadata`
companion) by an already-processed item whose point carries the row's
date. -/
def KeysOk (S : List AlignItem) (dm : DataMap) : Prop :=
  ∀ kr ∈ dm, ∀ (key : String) (e : Entry), rLookup kr.2 key = some e →
    key = "date" ∨
    ∃ it ∈ S, it.2.2.date = kr.1 ∧ (key = it.1 ∨ key = it.1 ++ "_metadata")

theorem keysOk_mono {S S' : List AlignItem} {dm : DataMap}
    (hs : ∀ it ∈ S, it ∈ S') (h : KeysOk S dm) : KeysOk S' dm := by
  intro kr hkr key e he
  rcases h kr hkr key e he with h1 | ⟨it, hit, h2⟩
  · exact Or.inl h1
  · exact Or.inr ⟨it, hs it hit, h2⟩

theorem keysOk_stepItem {S : List AlignItem} {dm : DataMap} (it : AlignItem)
    (h : KeysOk S dm) : KeysOk (S ++ [it]) (stepItem dm it) := by
  have hS : ∀ x ∈ S, x ∈ S ++ [it] := fun x hx => List.mem_append_left _ hx
  have hit : it ∈ S ++ [it] := List.mem_append_right _ (List.mem_singleton_self it)
  unfold stepItem addPoint
  have h1 : KeysOk (S ++ [it]) (if dmHas dm it.2.2.date then dm
      else dm ++ [(it.2.2.date, [("date", Entry.str it.2.2.date)])]) := by
    by_cases hh : dmHas dm it.2.2.date
    · rw [if_pos hh]; exact keysOk_mono hS h
    · rw [if_neg hh]
      intro kr hkr key e he
      rcases List.mem_append.mp hkr with hkr | hkr
      · exact keysOk_mono hS h kr hkr key e he
      · rw [List.mem_singleton] at hkr
        subst hkr
        simp only [rLookup] at he
        by_cases hk : "date" = key
        · exact Or.inl hk.symm
        · rw [if_neg hk] at he
          exact Option.noConfusion he
  have h2 : KeysOk (S ++ [it]) (dmUpdate (if dmHas dm it.2.2.date then dm
      else dm ++ [(it.2.2.date, [("date", Entry.str it.2.2.date)])]) it.2.2.date
      (fun r => recordSet r it.1 (Entry.val it.2.2.value))) := by
    refine dmUpdate_pres _ _ _ _ h1 ?_
    intro r0 hr0 key e he
    rcases rLookup_recordSet_shape it.1 key _ _ r0 he with ⟨hk, _⟩ | hl
    · exact Or.inr ⟨it, hit, rfl, Or.inl hk⟩
    · exact h1 (it.2.2.date, r0) hr0 key e hl
  cases hmd : it.2.1 with
  | none => exact h2
  | some m =>
    refine dmUpdate_pres _ _ _ _ h2 ?_
    intro r0 hr0 key e he
    rcases rLookup_recordSet_shape (it.1 ++ "_metadata") key _ _ r0 he with ⟨hk, _⟩ | hl
    · exact Or.inr ⟨it, hit, rfl, Or.inr hk⟩
    · exact h2 (it.2.2.date, r0) hr0 key e hl

theorem keysOk_foldl :
    ∀ (its S : List AlignItem) (dm : DataMap),
      KeysOk S dm → KeysOk (S ++ its) (its.foldl stepItem dm) := by
  intro its
  induction its with
  | nil => intro S dm h; rw [List.append_nil]; exact h
  | cons it rest ih =>
    intro S dm h
    have h1 := ih (S ++ [it]) (stepItem dm it) (keysOk_stepItem it h)
    rw [List.append_assoc] at h1
    simpa using h1

theorem keysOk_buildDataMap (dss : List TimeSeriesDataset) :
    KeysOk (alignItems dss) (buildDataMap dss) := by
  rw [buildDataMap_items]
  have h0 : KeysOk [] ([] : DataMap) := by
    intro kr hkr
    exact absurd hkr (List.not_mem_nil kr)
  simpa using keysOk_foldl (alignItems dss) [] [] h0

theorem dateOkW_buildDataMap (dss : List TimeSeriesDataset) :
    DateOkW (buildDataMap dss) := by
  rw [buildDataMap_items]
  refine dateOkW_foldl _ [] ?_
  intro kr hkr
  exact absurd hkr (List.not_mem_nil kr)

theorem dateOk_buildDataMap (dss : List TimeSeriesDataset)
    (h : ∀ ds ∈ dss, ds.id ≠ "date") : DateOkMap (buildDataMap dss) := by
  rw [buildDataMap_items]
  refine dateOk_foldl _ [] ?_ ?_
  · intro it hit
    obtain ⟨ds, hds, hid, _, _⟩ := mem_alignItems hit
    rw [hid]
    exact h ds hds
  · intro kr hkr
    exact absurd hkr (List.not_mem_nil kr)

/-!
Properties of the stable insertion sort: permutation and sortedness (the
latter on lists whose elements all have a defined time, where the JS
comparator is a total preorder).
-/

theorem mem_insertCmp (cmp : α → α → Ordering) (x : α) :
    ∀ (l : List α) (a : α), a ∈ insertCmp cmp x l ↔ a = x ∨ a ∈ l := by
  intro l
  induction l with
  | nil => intro a; simp [insertCmp]
  | cons y ys ih =>
    intro a
    unfold insertCmp
    by_cases h : cmp y x = Ordering.gt
    · rw [if_pos h]
      simp [List.mem_cons]
    · rw [if_neg h]
      simp only [List.mem_cons, ih]
      tauto

theorem insertCmp_perm (cmp : α → α → Ordering) (x : α) :
    ∀ l : List α, List.Perm (insertCmp cmp x l) (x :: l) := by
  intro l
  induction l with
  | nil => exact List.Perm.refl _
  | cons y ys ih =>
    unfold insertCmp
    by_cases h : cmp y x = Ordering.gt
    · rw [if_pos h]
    · rw [if_neg h]
      exact (List.Perm.cons y ih).trans (List.Perm.swap x y ys)

theorem jsStableSort_perm_aux (cmp : α → α → Ordering) :
    ∀ (l acc : List α),
      List.Perm (l.foldl (fun acc x => insertCmp cmp x acc) acc) (acc ++ l) := by
  intro l
  induction l with
  | nil =>
    intro acc
    rw [List.append_nil]
    exact List.Perm.refl acc
  | cons x t ih =>
    intro acc
    show List.Perm (t.foldl _ (insertCmp cmp x acc)) _
    refine (ih (insertCmp cmp x acc)).trans ?_
    refine (((insertCmp_perm cmp x acc).append_right t).trans ?_)
    show List.Perm (x :: (acc ++ t)) (acc ++ x :: t)
    exact List.perm_middle.symm

theorem jsStableSort_perm (cmp : α → α → Ordering) (l : List α) :
    List.Perm (jsStableSort cmp l) l := by
  simpa using jsStableSort_perm_aux cmp l []

theorem cmpByKey_gt_iff {key : α → Option ℤ} {a b : α} {x y : ℤ}
    (ha : key a = some x) (hb : key b = some y) :
    cmpByKey key a b = Ordering.gt ↔ y < x := by
  simp [cmpByKey, ha, hb, compare_gt_iff_gt]

theorem pairwise_insertCmp (key : α → Option ℤ) (x : α) :
    ∀ l : List α, (∀ y ∈ l, (key y).isSome) → (key x).isSome →
      l.Pairwise (fun a b => (key a).getD 0 ≤ (key b).getD 0) →
      (insertCmp (cmpByKey key) x l).Pairwise
        (fun a b => (key a).getD 0 ≤ (key b).getD 0) := by
  intro l
  induction l with
  | nil =>
    intro _ _ _
    exact List.pairwise_singleton _ x
  | cons y ys ih =>
    intro hmem hx hp
    obtain ⟨xv, hxv⟩ := Option.isSome_iff_exists.mp hx
    obtain ⟨yv, hyv⟩ := Option.isSome_iff_exists.mp (hmem y (List.mem_cons_self y ys))
    unfold insertCmp
    by_cases hgt : cmpByKey key y x = Ordering.gt
    · rw [if_pos hgt]
      have hlt : (key x).getD 0 < (key y).getD 0 := by
        rw [hxv, hyv]
        exact (cmpByKey_gt_iff hyv hxv).mp hgt
      refine List.Pairwise.cons ?_ hp
      intro z hz
      rcases List.mem_cons.mp hz with rfl | hz
      · exact le_of_lt hlt
      · exact le_trans (le_of_lt hlt) ((List.pairwise_cons.mp hp).1 z hz)
    · rw [if_neg hgt]
      have hle : (key y).getD 0 ≤ (key x).getD 0 := by
        rw [hxv, hyv]
        show yv ≤ xv
        by_contra hc
        exact hgt ((cmpByKey_gt_iff hyv hxv).mpr (lt_of_not_ge hc))
      refine List.Pairwise.cons ?_ ?_
      · intro z hz
        rcases (mem_insertCmp _ x ys z).mp hz with rfl | hz
        · exact hle
        · exact (List.pairwise_cons.mp hp).1 z hz
      · exact ih (fun y1 hy1 => hmem y1 (List.mem_cons_of_mem y hy1)) hx
          (List.pairwise_cons.mp hp).2

theorem pairwise_jsStableSort_aux (key : α → Option ℤ) :
    ∀ (l acc : List α), (∀ a ∈ l, (key a).isSome) → (∀ a ∈ acc, (key a).isSome) →
      acc.Pairwise (fun a b => (key a).getD 0 ≤ (key b).getD 0) →
      (l.foldl (fun acc x => insertCmp (cmpByKey key) x acc) acc).Pairwise
        (fun a b => (key a).getD 0 ≤ (key b).getD 0) := by
  intro l
  induction l with
  | nil => intro acc _ _ hacc; exact hacc
  | cons x t ih =>
    intro acc hl hacc hp
    refine ih (insertCmp (cmpByKey key) x acc) ?_ ?_ ?_
    · intro a ha
      exact hl a (List.mem_cons_of_mem x ha)
    · intro a ha
      rcases (mem_insertCmp _ x acc a).mp ha with rfl | ha
      · exact hl a (List.mem_cons_self a t)
      · exact hacc a ha
    · exact pairwise_insertCmp key x acc hacc (hl x (List.mem_cons_self x t)) hp

theorem jsStableSort_sorted (key : α → Option ℤ) (l : List α)
    (h : ∀ a ∈ l, (key a).isSome) :
    (jsStableSort (cmpByKey key) l).Pairwise
      (fun a b => (key a).getD 0 ≤ (key b).getD 0) :=
  pairwise_jsStableSort_aux key l [] h
    (fun a ha => absurd ha (List.not_mem_nil a)) List.Pairwise.nil

/-- C1 (counterexample): two failures of the original claim.  First,
the row count equals the number of distinct RAW date strings, not of
distinct canonical DateKeys: on `"2020"` vs `"2020-01-01"` — one
reporting period, hence one spec-side DateKey (second conjunct) —
alignment produces two rows (first conjunct).  Second, the
absent-for-every-other-dataset clause fails when another dataset's id
collides with a metadata key of the row's record: dataset
`"a_metadata"` has no point at 2020-01-01, yet the row for that date
holds dataset `"a"`'s metadata object under the key `"a_metadata"`, so
the lookup under that other dataset's id is not absent (fourth
conjunct). -/
theorem C1_align_union_counterexample :
    (chartData
      [⟨"a", "A", [⟨"2020", .num (.fin 1)⟩], none⟩,
       ⟨"b", "B", [⟨"2020-01-01", .num (.fin 2)⟩], none⟩]).length = 2 ∧
    (((allDateStrs
      [⟨"a", "A", [⟨"2020", .num (.fin 1)⟩], none⟩,
       ⟨"b", "B", [⟨"2020-01-01", .num (.fin 2)⟩], none⟩]).map specDateKey).dedup).length = 1 ∧
    (2 : ℕ) ≠ 1 ∧
    rLookup
      ((chartData
        [⟨"a", "A", [⟨"2020-01-01", .num (.fin 1)⟩], some [("units", "pct")]⟩,
         ⟨"a_metadata", "B", [⟨"2020-01-02", .num (.fin 2)⟩], none⟩]).getD 0 [])
      "a_metadata" = some (.meta [("units", "pct")]) := by
  exact ⟨by decide, by decide, by decide, by decide⟩

/-- C1 (amended): alignment is keyed by the union of all RAW date
strings (not canonical DateKeys: distinct strings denoting the same
period yield separate rows, see the counterexample) — `align([])` is
`[]`; for every dataset sequence the number of rows equals the number of
distinct date strings across all datasets' points; and a date present
only in one dataset yields a row whose value under every other
dataset's id is absent, provided that id collides neither with the
reserved `date` field nor with the owning dataset's metadata key
`id + "_metadata"` (values, the date field and metadata share one row
record in the implementation, so such collisions do produce non-absent
entries). -/
theorem C1_align_union :
    chartData [] = [] ∧
    (∀ dss : List TimeSeriesDataset,
      (chartData dss).length = (allDateStrs dss).dedup.length) ∧
    (∀ (dss : List TimeSeriesDataset) (i j : TimeSeriesDataset) (d : String),
      i ∈ dss → j ∈ dss →
      (∀ k ∈ dss, (∃ p ∈ k.data, p.date = d) → k.id = i.id) →
      j.id ≠ i.id → j.id ≠ "date" → j.id ≠ i.id ++ "_metadata" →
      ∀ r ∈ chartData dss, rLookup r "date" = some (.str d) →
      rLookup r j.id = none) := by
  refine ⟨rfl, ?_, ?_⟩
  · intro dss
    by_cases h0 : dss.length = 0
    · have : dss = [] := List.length_eq_zero.mp h0
      subst this
      rfl
    · unfold chartData
      rw [if_neg h0]
      rw [(jsStableSort_perm cmpRows _).length_eq, List.length_map]
      have h1 : (buildDataMap dss).length = (dmKeys (buildDataMap dss)).length :=
        (List.length_map _ _).symm
      rw [h1, buildDataMap_items, dmKeys_foldl, alignItems_map_date]
      show (insKeys (dmKeys []) (allDateStrs dss)).length = _
      exact insKeys_length_eq_dedup (allDateStrs dss)
  · intro dss i j d hi hj honly hji hjd hjm r hr hrd
    by_cases h0 : dss.length = 0
    · have : dss = [] := List.length_eq_zero.mp h0
      subst this
      exact absurd hr (List.not_mem_nil r)
    · unfold chartData at hr
      rw [if_neg h0] at hr
      have hr2 : r ∈ (buildDataMap dss).map Prod.snd :=
        (jsStableSort_perm cmpRows _).mem_iff.mp hr
      obtain ⟨kr, hkr, hkr2⟩ := List.mem_map.mp hr2
      have hkey : d = kr.1 := by
        refine dateOkW_buildDataMap dss kr hkr d ?_
        rw [hkr2]
        exact hrd
      cases hlook : rLookup r j.id with
      | none => rfl
      | some e =>
        exfalso
        have hlook2 : rLookup kr.2 j.id = some e := by rw [hkr2]; exact hlook
        rcases keysOk_buildDataMap dss kr hkr j.id e hlook2 with h1 | ⟨it, hit, hdate, hcase⟩
        · exact hjd h1
        · obtain ⟨ds, hds, hdsid, _, hpmem⟩ := mem_alignItems hit
          have hdsi : ds.id = i.id := by
            refine honly ds hds ⟨it.2.2, hpmem, ?_⟩
            rw [hdate, ← hkey]
          rcases hcase with h2 | h2
          · exact hji (by rw [h2, hdsid, hdsi])
          · exact hjm (by rw [h2, hdsid, hdsi])

/-- Witness for C1 (third conjunct): in a two-dataset alignment where
only dataset `a` has a point at 2020-01-01, the row for that date has no
entry under dataset id `b`. -/
theorem C1_align_union_witness :
    rLookup [("date", Entry.str "2020-01-01"), ("a", Entry.val (.num (.fin 1)))] "b" =
      none :=
  C1_align_union.2.2
    [⟨"a", "A", [⟨"2020-01-01", .num (.fin 1)⟩], none⟩,
     ⟨"b", "B", [⟨"2020-01-02", .num (.fin 2)⟩], none⟩]
    ⟨"a", "A", [⟨"2020-01-01", .num (.fin 1)⟩], none⟩
    ⟨"b", "B", [⟨"2020-01-02", .num (.fin 2)⟩], none⟩
    "2020-01-01" (by decide) (by decide) (by decide) (by decide) (by decide)
    (by decide)
    [("date", Entry.str "2020-01-01"), ("a", Entry.val (.num (.fin 1)))]
    (by decide) (by decide)

/-- C6 (counterexample): rows are keyed by the exact date string, not by
a canonical date key — the points `{date: "2020"}` and `{date:
"2020-01-01"}` denote the same reporting period (both parse to the UTC
midnight of 2020-01-01, as the second conjunct shows), yet alignment
produces TWO rows, which moreover tie on the parsed date, so the row
sequence is neither collapsed by reporting period nor strictly
ascending by date. -/
theorem C6_align_order_counterexample :
    chartData
      [⟨"a", "A", [⟨"2020", .num (.fin 1)⟩], none⟩,
       ⟨"b", "B", [⟨"2020-01-01", .num (.fin 2)⟩], none⟩] =
      [[("date", .str "2020"), ("a", .val (.num (.fin 1)))],
       [("date", .str "2020-01-01"), ("b", .val (.num (.fin 2)))]] ∧
    jsParseDateString "2020" = jsParseDateString "2020-01-01" ∧
    rowTime [("date", Entry.str "2020"), ("a", Entry.val (.num (.fin 1)))] =
      rowTime [("date", Entry.str "2020-01-01"), ("b", Entry.val (.num (.fin 2)))] ∧
    [("date", Entry.str "2020"), ("a", Entry.val (.num (.fin 1)))] ≠
      [("date", Entry.str "2020-01-01"), ("b", Entry.val (.num (.fin 2)))] := by
  exact ⟨by decide, by decide, by decide, by decide⟩

/-- C6 (amended): when no dataset id collides with the reserved `date`
field, every point's date string parses, and distinct date strings parse
to distinct times (no two source formats denote the same period), the
rows of `chartData` are strictly ascending in parsed date and pairwise
distinct in their date keys.  Ties of distinct strings denoting the same
period are NOT collapsed (see the counterexample): collapsing happens
only on exact string equality. -/
theorem C6_align_order_amended :
    ∀ dss : List TimeSeriesDataset,
      (∀ ds ∈ dss, ds.id ≠ "date") →
      (∀ s ∈ allDateStrs dss, (jsParseDateString s).isSome) →
      (∀ s1 ∈ allDateStrs dss, ∀ s2 ∈ allDateStrs dss,
        jsParseDateString s1 = jsParseDateString s2 → s1 = s2) →
      (chartData dss).Pairwise
        (fun r1 r2 => (rowTime r1).getD 0 < (rowTime r2).getD 0) ∧
      (chartData dss).Pairwise
        (fun r1 r2 => rLookup r1 "date" ≠ rLookup r2 "date") := by
  intro dss h1 h2 h3
  by_cases h0 : dss.length = 0
  · have he : dss = [] := List.length_eq_zero.mp h0
    subst he
    exact ⟨List.Pairwise.nil, List.Pairwise.nil⟩
  · have hck : chartData dss =
        jsStableSort cmpRows ((buildDataMap dss).map Prod.snd) := by
      unfold chartData
      rw [if_neg h0]
    have hperm := jsStableSort_perm cmpRows ((buildDataMap dss).map Prod.snd)
    have hdok : DateOkMap (buildDataMap dss) := dateOk_buildDataMap dss h1
    have hkeys : dmKeys (buildDataMap dss) = insKeys [] (allDateStrs dss) := by
      rw [buildDataMap_items, dmKeys_foldl, alignItems_map_date]
      rfl
    have hknodup : (dmKeys (buildDataMap dss)).Nodup := by
      rw [hkeys]
      exact insKeys_nodup _ [] List.nodup_nil
    have hkmem : ∀ k ∈ dmKeys (buildDataMap dss), k ∈ allDateStrs dss := by
      intro k hk
      rw [hkeys] at hk
      rcases (mem_insKeys _ [] k).mp hk with h | h
      · exact absurd h (List.not_mem_nil k)
      · exact h
    have hrt : ∀ kr ∈ buildDataMap dss, rowTime kr.2 = jsParseDateString kr.1 := by
      intro kr hkr
      unfold rowTime
      rw [hdok kr hkr]
    have hsome : ∀ r ∈ (buildDataMap dss).map Prod.snd, (rowTime r).isSome := by
      intro r hr
      obtain ⟨kr, hkr, rfl⟩ := List.mem_map.mp hr
      rw [hrt kr hkr]
      exact h2 kr.1 (hkmem kr.1 (List.mem_map_of_mem Prod.fst hkr))
    have hbmne : (buildDataMap dss).Pairwise (fun a b => a.1 ≠ b.1) := by
      have h := hknodup
      unfold dmKeys at h
      rw [List.Nodup, List.pairwise_map] at h
      exact h
    have hrowsne : ((buildDataMap dss).map Prod.snd).Pairwise
        (fun r1 r2 => rowTime r1 ≠ rowTime r2) := by
      rw [List.pairwise_map]
      refine List.Pairwise.imp_of_mem ?_ hbmne
      intro a b ha hb hne heq
      rw [hrt a ha, hrt b hb] at heq
      exact hne (h3 a.1 (hkmem a.1 (List.mem_map_of_mem Prod.fst ha))
        b.1 (hkmem b.1 (List.mem_map_of_mem Prod.fst hb)) heq)
    have hrowsdne : ((buildDataMap dss).map Prod.snd).Pairwise
        (fun r1 r2 => rLookup r1 "date" ≠ rLookup r2 "date") := by
      rw [List.pairwise_map]
      refine List.Pairwise.imp_of_mem ?_ hbmne
      intro a b ha hb hne heq
      rw [hdok a ha, hdok b hb] at heq
      exact hne ((Entry.str.injEq ..).mp ((Option.some.injEq ..).mp heq))
    have hsorted : (jsStableSort cmpRows ((buildDataMap dss).map Prod.snd)).Pairwise
        (fun a b => (rowTime a).getD 0 ≤ (rowTime b).getD 0) :=
      jsStableSort_sorted rowTime _ hsome
    have hsne : (jsStableSort cmpRows ((buildDataMap dss).map Prod.snd)).Pairwise
        (fun r1 r2 => rowTime r1 ≠ rowTime r2) :=
      (hperm.pairwise_iff (fun h hc => h hc.symm)).mpr hrowsne
    have hsdne : (jsStableSort cmpRows ((buildDataMap dss).map Prod.snd)).Pairwise
        (fun r1 r2 => rLookup r1 "date" ≠ rLookup r2 "date") :=
      (hperm.pairwise_iff (fun h hc => h hc.symm)).mpr hrowsdne
    have hlt : (jsStableSort cmpRows ((buildDataMap dss).map Prod.snd)).Pairwise
        (fun r1 r2 => (rowTime r1).getD 0 < (rowTime r2).getD 0) := by
      refine List.Pairwise.imp_of_mem ?_ (hsorted.and hsne)
      rintro a b ha hb ⟨hle, hne⟩
      obtain ⟨xa, hxa⟩ := Option.isSome_iff_exists.mp (hsome a (hperm.subset ha))
      obtain ⟨xb, hxb⟩ := Option.isSome_iff_exists.mp (hsome b (hperm.subset hb))
      have hne2 : xa ≠ xb := fun hc => hne (by rw [hxa, hxb, hc])
      have hle2 : xa ≤ xb := by
        have := hle
        rw [hxa, hxb] at this
        exact this
      rw [hxa, hxb]
      show xa < xb
      omega
    rw [hck]
    exact ⟨hlt, hsdne⟩

/-- Witness for the amended C6 on a concrete two-dataset alignment with
distinct, parseable, injectively-parsed date strings. -/
theorem C6_align_order_amended_witness :
    (chartData
      [⟨"a", "A", [⟨"2020-01-02", .num (.fin 1)⟩], none⟩,
       ⟨"b", "B", [⟨"2020-01-01", .num (.fin 2)⟩], none⟩]).Pairwise
      (fun r1 r2 => (rowTime r1).getD 0 < (rowTime r2).getD 0) ∧
    (chartData
      [⟨"a", "A", [⟨"2020-01-02", .num (.fin 1)⟩], none⟩,
       ⟨"b", "B", [⟨"2020-01-01", .num (.fin 2)⟩], none⟩]).Pairwise
      (fun r1 r2 => rLookup r1 "date" ≠ rLookup r2 "date") :=
  C6_align_order_amended _ (by decide) (by decide) (by decide)

end Scraper
